import Mathlib

/-!
Verification of the deadlog repository: a shallow embedding of the
instrumented mutex (src/mutex.go, src/options.go), the event model
(src/event.go) and the log analyzer (src/analyze/analyze.go), with
theorems settling the specification claims about them.
-/

namespace Deadlog

/-- Shallow embedding of the Go struct `deadlog.Event` (src/event.go):
fields Type, State, Name, ID, Trace, Ts.  Go `int`/`int64` are modelled
as `Int`, Go `string` as `String`. -/
structure Event where
  typ : String
  state : String
  name : String
  id : Int
  trace : String
  ts : Int
deriving DecidableEq

/-- Shallow embedding of `analyze.LockInfo` (src/analyze/analyze.go):
fields Type, Name, ID, Trace. -/
structure LockInfo where
  typ : String
  name : String
  id : Int
  trace : String
deriving DecidableEq

/-- The map key the analyzer computes for an event:
`fmt.Sprintf("%s|%s|%d", e.Type, e.Name, e.ID)` (analyze.go line 50). -/
def eventKey (e : Event) : String :=
  e.typ ++ "|" ++ e.name ++ "|" ++ toString e.id

/-- The `LockInfo` value the analyzer stores for an event
(analyze.go lines 54-59 and 61-66). -/
def infoOf (e : Event) : LockInfo :=
  ⟨e.typ, e.name, e.id, e.trace⟩

/-- Re-encoding of a stored `LockInfo` as its map key string. -/
def infoKey (i : LockInfo) : String :=
  i.typ ++ "|" ++ i.name ++ "|" ++ toString i.id

/-- The (kind, label, correlation id) triple that the specification
calls a correlation key (spec section 3). -/
structure CKey where
  typ : String
  name : String
  id : Int
deriving DecidableEq

/-- Correlation-key triple of an event. -/
def keyOfEvent (e : Event) : CKey := ⟨e.typ, e.name, e.id⟩

/-- Correlation-key triple of a stored `LockInfo`. -/
def keyOfInfo (i : LockInfo) : CKey := ⟨i.typ, i.name, i.id⟩

/-- String encoding of a correlation-key triple, as the analyzer builds it. -/
def encodeKey (t : CKey) : String :=
  t.typ ++ "|" ++ t.name ++ "|" ++ toString t.id

/-- Association-list model of a Go `map[string]*LockInfo` write
`m[k] = v`: overwrite the entry for `k` if present, else add it. -/
def mapSet : List (String × LockInfo) → String → LockInfo → List (String × LockInfo)
  | [], k, v => [(k, v)]
  | p :: rest, k, v => if p.1 = k then (k, v) :: rest else p :: mapSet rest k v

/-- Association-list model of a Go map read `v, ok := m[k]`. -/
def mapGet : List (String × LockInfo) → String → Option LockInfo
  | [], _ => none
  | p :: rest, k => if p.1 = k then some p.2 else mapGet rest k

/-- Model of a Go `map[string]struct\x7b\x7d` write (a presence set). -/
def setAdd (s : List String) (k : String) : List String :=
  if k ∈ s then s else k :: s

/-- The analyzer working state: the three maps `starts`, `acquires`,
`releases` of `Analyze` (analyze.go lines 33-35). -/
structure AState where
  starts : List (String × LockInfo)
  acquires : List (String × LockInfo)
  releases : List String
deriving DecidableEq

/-- One iteration of the scan loop of `Analyze` (analyze.go lines 38-70).
`none` stands for a scanned line that is empty or fails to decode as an
`Event` (json.Unmarshal error); such a line is skipped.  A decoded event
is dispatched on its State field; any other State value is ignored. -/
def step (st : AState) (line : Option Event) : AState :=
  match line with
  | none => st
  | some e =>
    if e.state = "START" then
      ⟨mapSet st.starts (eventKey e) (infoOf e), st.acquires, st.releases⟩
    else if e.state = "ACQUIRED" then
      ⟨st.starts, mapSet st.acquires (eventKey e) (infoOf e), st.releases⟩
    else if e.state = "RELEASED" then
      ⟨st.starts, st.acquires, setAdd st.releases (eventKey e)⟩
    else st

/-- The analyzer state after the full scan of the input lines. -/
def analyzeState (lines : List (Option Event)) : AState :=
  lines.foldl step ⟨[], [], []⟩

/-- The analysis result: the `Stuck` and `Held` collections of
`analyze.Result` (analyze.go lines 23-29). -/
structure AResult where
  stuck : List LockInfo
  held : List LockInfo
deriving DecidableEq

/-- The sorting relation used by both `sort.Slice` calls of `Analyze`
(analyze.go lines 92-98): ascending correlation ID. -/
def idLe (a b : LockInfo) : Prop := a.id ≤ b.id

instance : DecidableRel idLe := fun a b => inferInstanceAs (Decidable (a.id ≤ b.id))

instance : IsTotal LockInfo idLe := ⟨fun a b => Int.le_total a.id b.id⟩

instance : IsTrans LockInfo idLe := ⟨fun _ _ _ h1 h2 => le_trans h1 h2⟩

/-- Model of the two `sort.Slice` calls of `Analyze` (analyze.go lines
92-98): rearrange the collection into ascending correlation-ID order. -/
def sortById (l : List LockInfo) : List LockInfo :=
  l.insertionSort idLe

/-- Stuck extraction (analyze.go lines 78-83): entries of `starts`
whose key is absent from `acquires`. -/
def stuckPre (st : AState) : List LockInfo :=
  (st.starts.filter (fun p => (mapGet st.acquires p.1).isNone)).map Prod.snd

/-- Held extraction (analyze.go lines 85-90): entries of `acquires`
whose key is absent from `releases`.  Note the source applies no
lock-kind filter here. -/
def heldPre (st : AState) : List LockInfo :=
  (st.acquires.filter (fun p => decide (p.1 ∉ st.releases))).map Prod.snd

/-- Result construction of `Analyze` after the scan
(analyze.go lines 76-100). -/
def finish (st : AState) : AResult :=
  ⟨sortById (stuckPre st), sortById (heldPre st)⟩

/-- `Analyze` restricted to its pure part: the result computed from the
sequence of scanned lines (each line either decodes to an event or is
skipped). -/
def analyzeCore (lines : List (Option Event)) : AResult :=
  finish (analyzeState lines)

/-- Full model of the Go function `Analyze(r io.Reader) (*Result, error)`
(analyze.go lines 32-101).  `lines` are the lines the scanner delivered
before stopping and `readErr` is the value of `scanner.Err()` after the
loop: the underlying transport error, or `none` when the input simply
ended.  The Go return value is the pair (pointer-or-nil, error-or-nil),
modelled as a pair of options. -/
def AnalyzeGo (lines : List (Option Event)) (readErr : Option String) :
    Option AResult × Option String :=
  let st := lines.foldl step ⟨[], [], []⟩
  match readErr with
  | some msg => (none, some msg)
  | none => (some (finish st), none)

/-- Presence of a phase for an encoded key string somewhere in the input:
some decodable line carries an event with this State whose computed map
key is `k`. -/
def HasPhase (lines : List (Option Event)) (ph : String) (k : String) : Prop :=
  ∃ e, some e ∈ lines ∧ e.state = ph ∧ eventKey e = k

/-- Presence of a phase for a correlation-key triple somewhere in the
input. -/
def HasPhaseT (lines : List (Option Event)) (ph : String) (t : CKey) : Prop :=
  ∃ e, some e ∈ lines ∧ e.state = ph ∧ keyOfEvent e = t

/-- The input stream encodes correlation keys injectively: two decodable
events that the analyzer maps to the same key string agree on their
(kind, label, id) triple.  This holds in particular whenever no event
Type field contains the separator bar, which is true of the four kinds
the library emits. -/
def KeyInj (lines : List (Option Event)) : Prop :=
  ∀ e e2, some e ∈ lines → some e2 ∈ lines → eventKey e = eventKey e2 →
    keyOfEvent e = keyOfEvent e2

/-- Correlation-key triples of the stuck collection. -/
def stuckKeys (r : AResult) : List CKey := r.stuck.map keyOfInfo

/-- Correlation-key triples of the held collection. -/
def heldKeys (r : AResult) : List CKey := r.held.map keyOfInfo

/-- Event record with an empty trace, as produced by the raw JSON inputs
used in the analyzer tests. -/
def mkEv (t s n : String) (i ts : Int) : Event := ⟨t, s, n, i, "", ts⟩

/-- The exact twelve-record input of `TestAnalyze_CountsByType`
(src/analyze/analyze.go test section): kinds LOCK, RLOCK, WLOCK, RWLOCK
with various complete and incomplete lifecycles. -/
def countsInput : List (Option Event) :=
  [some (mkEv "LOCK" "START" "a" 1 1),
   some (mkEv "LOCK" "ACQUIRED" "a" 1 2),
   some (mkEv "LOCK" "START" "b" 2 3),
   some (mkEv "LOCK" "ACQUIRED" "b" 2 4),
   some (mkEv "LOCK" "RELEASED" "b" 2 5),
   some (mkEv "RLOCK" "START" "c" 3 6),
   some (mkEv "RLOCK" "ACQUIRED" "c" 3 7),
   some (mkEv "WLOCK" "START" "d" 4 8),
   some (mkEv "WLOCK" "ACQUIRED" "d" 4 9),
   some (mkEv "RWLOCK" "START" "e" 5 10),
   some (mkEv "RWLOCK" "ACQUIRED" "e" 5 11),
   some (mkEv "WLOCK" "START" "f" 6 12)]

/-- An observable action of an instrumented lock operation: an event
emission through the configured log function, or a call into the wrapped
`sync.RWMutex` primitive. -/
inductive Action where
  | emit (e : Event)
  | lockPrim
  | unlockPrim
  | rlockPrim
  | runlockPrim
deriving DecidableEq

/-- Shallow embedding of the `deadlog.Mutex` configuration fields
(src/mutex.go lines 10-15): the display name, whether a log function is
set (`logFunc != nil`), and the trace depth.  The wrapped primitive
itself is out of scope; calls into it appear as `Action`s. -/
structure MutexCfg where
  name : String
  hasLogger : Bool
  traceDepth : Nat
deriving DecidableEq

/-- The ambient values an operation reads from its environment: the
value drawn from the random source by `rand.IntN`, the caller-chain
string `getCallerChain` would produce, and the `time.Now` stamps of the
up-to-three emissions. -/
structure Env where
  r : Nat
  tr : String
  ts1 : Int
  ts2 : Int
  ts3 : Int

/-- Model of `math/rand/v2` `rand.IntN(n)`: a sample `r` from the random
source reduced to the range `[0, n)`. -/
def randIntN (n : Nat) (r : Nat) : Nat := r % n

/-- Shallow embedding of `(*Mutex).emit` (src/mutex.go lines 28-37): no
action when `logFunc` is nil; otherwise build the trace string when
`traceDepth > 0` and emit one event carrying the given type, state,
name, id and timestamp. -/
def emitActs (m : MutexCfg) (env : Env) (typ st : String) (id : Int)
    (name : String) (ts : Int) : List Action :=
  if m.hasLogger then
    [.emit ⟨typ, st, name, id, (if m.traceDepth > 0 then env.tr else ""), ts⟩]
  else []

/-- Shallow embedding of `lockOpts` (src/options.go): the per-call
settings of one `LockFunc`/`RLockFunc` call. -/
structure CallOpts where
  name : String
deriving DecidableEq

/-- Shallow embedding of `LockOpt` (src/options.go): a mutator of the
per-call settings. -/
def LockOpt : Type := CallOpts → CallOpts

/-- Shallow embedding of `WithLockName` (src/options.go): set the name
for this one lock operation. -/
def WithLockName (n : String) : LockOpt := fun _o => ⟨n⟩

/-- Shallow embedding of `(*Mutex).Lock` (src/mutex.go lines 40-45):
draw an id, emit WLOCK START, acquire the write primitive, emit WLOCK
ACQUIRED.  The method never writes to the Mutex fields. -/
def lockOp (m : MutexCfg) (env : Env) : List Action :=
  let id : Int := randIntN 9999999 env.r
  emitActs m env "WLOCK" "START" id m.name env.ts1
    ++ [.lockPrim]
    ++ emitActs m env "WLOCK" "ACQUIRED" id m.name env.ts2

/-- Shallow embedding of `(*Mutex).RLock` (src/mutex.go lines 72-78). -/
def rlockOp (m : MutexCfg) (env : Env) : List Action :=
  let id : Int := randIntN 9999999 env.r
  emitActs m env "RWLOCK" "START" id m.name env.ts1
    ++ [.rlockPrim]
    ++ emitActs m env "RWLOCK" "ACQUIRED" id m.name env.ts2

/-- Shallow embedding of `(*Mutex).LockFunc` (src/mutex.go lines 56-69):
fold the per-call options over the instance name, draw an id, emit LOCK
START, acquire the primitive, emit LOCK ACQUIRED, and return the unlock
closure.  The value is the acquisition action sequence, the action
sequence of the returned unlock function (emit LOCK RELEASED, then
release the primitive), and the Mutex configuration as the method leaves
it (the body only reads the fields). -/
def lockFuncOp (m : MutexCfg) (opts : List LockOpt) (env : Env) :
    List Action × List Action × MutexCfg :=
  let lo := opts.foldl (fun s o => o s) ⟨m.name⟩
  let id : Int := randIntN 9999999 env.r
  (emitActs m env "LOCK" "START" id lo.name env.ts1
     ++ [.lockPrim]
     ++ emitActs m env "LOCK" "ACQUIRED" id lo.name env.ts2,
   emitActs m env "LOCK" "RELEASED" id lo.name env.ts3 ++ [.unlockPrim],
   m)

/-- Shallow embedding of `(*Mutex).RLockFunc` (src/mutex.go lines 85-102). -/
def rlockFuncOp (m : MutexCfg) (opts : List LockOpt) (env : Env) :
    List Action × List Action × MutexCfg :=
  let lo := opts.foldl (fun s o => o s) ⟨m.name⟩
  let id : Int := randIntN 9999999 env.r
  (emitActs m env "RLOCK" "START" id lo.name env.ts1
     ++ [.rlockPrim]
     ++ emitActs m env "RLOCK" "ACQUIRED" id lo.name env.ts2,
   emitActs m env "RLOCK" "RELEASED" id lo.name env.ts3 ++ [.runlockPrim],
   m)

/-- The events emitted along an action sequence. -/
def emittedEvents (t : List Action) : List Event :=
  t.filterMap (fun a => match a with | .emit e => some e | _ => none)

/-- A JSON field value of the wire record: the Event struct only
contains string and integer fields. -/
inductive Jval where
  | jstr (s : String)
  | jint (n : Int)
deriving DecidableEq

/-- The wire record of an event: the JSON object `encoding/json`
produces for `deadlog.Event` (src/event.go lines 13-21), as its ordered
field list.  Fields appear in struct order under their tag names; the
`trace` field carries `omitempty` and is omitted when empty; `name` has
no `omitempty` and is always present.  Rendering this record as one line
of text is the standard library's job and out of scope (spec section 1). -/
def encodeEvent (e : Event) : List (String × Jval) :=
  [("type", .jstr e.typ), ("state", .jstr e.state), ("name", .jstr e.name),
   ("id", .jint e.id)]
  ++ (if e.trace = "" then [] else [("trace", .jstr e.trace)])
  ++ [("ts", .jint e.ts)]

/-- Field lookup in a decoded JSON object. -/
def jget : List (String × Jval) → String → Option Jval
  | [], _ => none
  | p :: rest, k => if p.1 = k then some p.2 else jget rest k

/-- Decoding of a string field as `encoding/json` does for a `string`
struct field: absent means the zero value, a non-string value is a
decode error. -/
def getStr (o : List (String × Jval)) (k : String) : Option String :=
  match jget o k with
  | none => some ""
  | some (.jstr s) => some s
  | some (.jint _) => none

/-- Decoding of an integer field, with the zero value for an absent key. -/
def getInt (o : List (String × Jval)) (k : String) : Option Int :=
  match jget o k with
  | none => some 0
  | some (.jint n) => some n
  | some (.jstr _) => none

/-- Decoding of a wire record back into an Event, following
`json.Unmarshal` into `deadlog.Event`: each tagged field is read, absent
fields take their zero value, and a type mismatch fails the decode. -/
def decodeEvent (o : List (String × Jval)) : Option Event :=
  match getStr o "type", getStr o "state", getStr o "name",
        getInt o "id", getStr o "trace", getInt o "ts" with
  | some t, some s, some n, some i, some tr, some ts =>
      some ⟨t, s, n, i, tr, ts⟩
  | _, _, _, _, _, _ => none

/-- A START event for the triple (LOCK, x|2, 3). -/
def cexStart : Event := mkEv "LOCK" "START" "x|2" 3 1

/-- An ACQUIRED event for the different triple (LOCK|x, 2, 3), whose
analyzer key string LOCK|x|2|3 collides with that of `cexStart`. -/
def cexAcq : Event := mkEv "LOCK|x" "ACQUIRED" "2" 3 2

/-- First START event for the key-collision pair: triple (LOCK, x|2, 3). -/
def cexS1 : Event := mkEv "LOCK" "START" "x|2" 3 1

/-- Second START event of the pair: triple (LOCK|x, 2, 3), encoding to
the same key string LOCK|x|2|3 as `cexS1`. -/
def cexS2 : Event := mkEv "LOCK|x" "START" "2" 3 2

/-! ### Association-list map lemmas -/

theorem mapGet_mapSet (m : List (String × LockInfo)) (k : String) (v : LockInfo)
    (k2 : String) :
    mapGet (mapSet m k v) k2 = if k2 = k then some v else mapGet m k2 := by
  induction m with
  | nil =>
    by_cases h : k2 = k
    · subst h; simp [mapSet, mapGet]
    · simp [mapSet, mapGet, h, Ne.symm h]
  | cons p rest ih =>
    by_cases h1 : p.1 = k
    · by_cases h2 : k2 = k
      · subst h2; simp [mapSet, mapGet, h1]
      · simp [mapSet, mapGet, h1, h2, Ne.symm h2]
    · by_cases h2 : k2 = k
      · subst h2; simp [mapSet, mapGet, h1, ih]
      · simp [mapSet, mapGet, h1, h2, ih]

theorem mem_mapSet {p : String × LockInfo} {m : List (String × LockInfo)}
    {k : String} {v : LockInfo} (h : p ∈ mapSet m k v) :
    p = (k, v) ∨ p ∈ m := by
  induction m with
  | nil => simpa [mapSet] using h
  | cons q rest ih =>
    by_cases h1 : q.1 = k
    · simp [mapSet, h1] at h
      rcases h with h | h
      · exact Or.inl h
      · exact Or.inr (List.mem_cons_of_mem _ h)
    · simp [mapSet, h1] at h
      rcases h with h | h
      · exact Or.inr (h ▸ List.mem_cons_self _ _)
      · rcases ih h with h2 | h2
        · exact Or.inl h2
        · exact Or.inr (List.mem_cons_of_mem _ h2)

theorem mem_of_mapGet {m : List (String × LockInfo)} {k : String} {v : LockInfo}
    (h : mapGet m k = some v) : (k, v) ∈ m := by
  induction m with
  | nil => simp [mapGet] at h
  | cons q rest ih =>
    by_cases h1 : q.1 = k
    · simp [mapGet, h1] at h
      have : q = (k, v) := Prod.ext h1 h
      exact this ▸ List.mem_cons_self _ _
    · simp [mapGet, h1] at h
      exact List.mem_cons_of_mem _ (ih h)

theorem mem_setAdd {s : List String} {k k2 : String} :
    k2 ∈ setAdd s k ↔ k2 = k ∨ k2 ∈ s := by
  by_cases h : k ∈ s
  · simp only [setAdd, if_pos h]
    constructor
    · exact Or.inr
    · rintro (rfl | hh)
      · exact h
      · exact hh
  · simp [setAdd, h, List.mem_cons]

/-! ### Phase-presence lemmas -/

theorem hasPhase_cons_none {l : List (Option Event)} {ph k : String} :
    HasPhase (none :: l) ph k ↔ HasPhase l ph k := by
  simp [HasPhase]

theorem hasPhase_cons_some {l : List (Option Event)} {e : Event} {ph k : String} :
    HasPhase (some e :: l) ph k ↔
      (e.state = ph ∧ eventKey e = k) ∨ HasPhase l ph k := by
  constructor
  · rintro ⟨e2, he2, h1, h2⟩
    rcases List.mem_cons.mp he2 with h3 | h3
    · rcases Option.some.injEq .. ▸ h3 with rfl
      exact Or.inl ⟨h1, h2⟩
    · exact Or.inr ⟨e2, h3, h1, h2⟩
  · rintro (⟨h1, h2⟩ | ⟨e2, he2, h1, h2⟩)
    · exact ⟨e, List.mem_cons_self _ _, h1, h2⟩
    · exact ⟨e2, List.mem_cons_of_mem _ he2, h1, h2⟩

/-! ### Single-step lemmas -/

theorem step_none (st : AState) : step st none = st := rfl

theorem step_start {e : Event} (st : AState) (h : e.state = "START") :
    step st (some e) =
      ⟨mapSet st.starts (eventKey e) (infoOf e), st.acquires, st.releases⟩ := by
  simp [step, h]

theorem step_acq {e : Event} (st : AState) (h : e.state = "ACQUIRED") :
    step st (some e) =
      ⟨st.starts, mapSet st.acquires (eventKey e) (infoOf e), st.releases⟩ := by
  simp [step, h]

theorem step_rel {e : Event} (st : AState) (h : e.state = "RELEASED") :
    step st (some e) =
      ⟨st.starts, st.acquires, setAdd st.releases (eventKey e)⟩ := by
  simp [step, h]

theorem step_other {e : Event} (st : AState) (h1 : e.state ≠ "START")
    (h2 : e.state ≠ "ACQUIRED") (h3 : e.state ≠ "RELEASED") :
    step st (some e) = st := by
  simp [step, h1, h2, h3]

theorem step_starts_of_ne {e : Event} (st : AState) (h : e.state ≠ "START") :
    (step st (some e)).starts = st.starts := by
  simp only [step]
  split_ifs <;> first | rfl | simp_all

theorem step_acquires_of_ne {e : Event} (st : AState) (h : e.state ≠ "ACQUIRED") :
    (step st (some e)).acquires = st.acquires := by
  simp only [step]
  split_ifs <;> rfl

theorem step_releases_of_ne {e : Event} (st : AState) (h : e.state ≠ "RELEASED") :
    (step st (some e)).releases = st.releases := by
  simp only [step]
  split_ifs <;> rfl

/-! ### Scan-pass characterizations -/

theorem foldl_starts_isSome (l : List (Option Event)) :
    ∀ (st : AState) (k : String),
      (mapGet (l.foldl step st).starts k).isSome ↔
        (mapGet st.starts k).isSome ∨ HasPhase l "START" k := by
  induction l with
  | nil => intro st k; simp [HasPhase]
  | cons x rest ih =>
    intro st k
    rw [List.foldl_cons, ih]
    cases x with
    | none => rw [step_none, hasPhase_cons_none]
    | some e =>
      by_cases h1 : e.state = "START"
      · rw [step_start st h1, hasPhase_cons_some]
        by_cases hk : k = eventKey e
        · simp [mapGet_mapSet, hk, h1]
        · simp [mapGet_mapSet, hk, h1, Ne.symm hk]
      · rw [step_starts_of_ne st h1, hasPhase_cons_some]
        simp [h1]

theorem foldl_acquires_isSome (l : List (Option Event)) :
    ∀ (st : AState) (k : String),
      (mapGet (l.foldl step st).acquires k).isSome ↔
        (mapGet st.acquires k).isSome ∨ HasPhase l "ACQUIRED" k := by
  induction l with
  | nil => intro st k; simp [HasPhase]
  | cons x rest ih =>
    intro st k
    rw [List.foldl_cons, ih]
    cases x with
    | none => rw [step_none, hasPhase_cons_none]
    | some e =>
      by_cases h1 : e.state = "ACQUIRED"
      · rw [step_acq st h1, hasPhase_cons_some]
        by_cases hk : k = eventKey e
        · simp [mapGet_mapSet, hk, h1]
        · simp [mapGet_mapSet, hk, h1, Ne.symm hk]
      · rw [step_acquires_of_ne st h1, hasPhase_cons_some]
        simp [h1]

theorem foldl_releases_mem (l : List (Option Event)) :
    ∀ (st : AState) (k : String),
      k ∈ (l.foldl step st).releases ↔
        k ∈ st.releases ∨ HasPhase l "RELEASED" k := by
  induction l with
  | nil => intro st k; simp [HasPhase]
  | cons x rest ih =>
    intro st k
    rw [List.foldl_cons, ih]
    cases x with
    | none => rw [step_none, hasPhase_cons_none]
    | some e =>
      by_cases h1 : e.state = "RELEASED"
      · rw [step_rel st h1, hasPhase_cons_some]
        by_cases hk : k = eventKey e
        · simp [mem_setAdd, hk, h1]
        · simp [mem_setAdd, hk, h1, Ne.symm hk]
      · rw [step_releases_of_ne st h1, hasPhase_cons_some]
        simp [h1]

theorem foldl_starts_values (l : List (Option Event)) :
    ∀ (st : AState) (p : String × LockInfo), p ∈ (l.foldl step st).starts →
      p ∈ st.starts ∨
        (infoKey p.2 = p.1 ∧
          ∃ e, some e ∈ l ∧ e.state = "START" ∧ infoOf e = p.2 ∧ eventKey e = p.1) := by
  induction l with
  | nil => intro st p h; exact Or.inl h
  | cons x rest ih =>
    intro st p h
    rw [List.foldl_cons] at h
    rcases ih _ p h with hmem | ⟨hik, e, he, h1, h2, h3⟩
    · cases x with
      | none => exact Or.inl hmem
      | some e =>
        by_cases h1 : e.state = "START"
        · rw [step_start st h1] at hmem
          rcases mem_mapSet hmem with rfl | hmem2
          · exact Or.inr ⟨rfl, e, List.mem_cons_self _ _, h1, rfl, rfl⟩
          · exact Or.inl hmem2
        · rw [step_starts_of_ne st h1] at hmem
          exact Or.inl hmem
    · exact Or.inr ⟨hik, e, List.mem_cons_of_mem _ he, h1, h2, h3⟩

theorem foldl_acquires_values (l : List (Option Event)) :
    ∀ (st : AState) (p : String × LockInfo), p ∈ (l.foldl step st).acquires →
      p ∈ st.acquires ∨
        (infoKey p.2 = p.1 ∧
          ∃ e, some e ∈ l ∧ e.state = "ACQUIRED" ∧ infoOf e = p.2 ∧ eventKey e = p.1) := by
  induction l with
  | nil => intro st p h; exact Or.inl h
  | cons x rest ih =>
    intro st p h
    rw [List.foldl_cons] at h
    rcases ih _ p h with hmem | ⟨hik, e, he, h1, h2, h3⟩
    · cases x with
      | none => exact Or.inl hmem
      | some e =>
        by_cases h1 : e.state = "ACQUIRED"
        · rw [step_acq st h1] at hmem
          rcases mem_mapSet hmem with rfl | hmem2
          · exact Or.inr ⟨rfl, e, List.mem_cons_self _ _, h1, rfl, rfl⟩
          · exact Or.inl hmem2
        · rw [step_acquires_of_ne st h1] at hmem
          exact Or.inl hmem
    · exact Or.inr ⟨hik, e, List.mem_cons_of_mem _ he, h1, h2, h3⟩

/-! ### Characterizations at the initial state -/

theorem starts_isSome_iff (l : List (Option Event)) (k : String) :
    (mapGet (analyzeState l).starts k).isSome ↔ HasPhase l "START" k := by
  rw [analyzeState, foldl_starts_isSome]
  simp [mapGet]

theorem acquires_isSome_iff (l : List (Option Event)) (k : String) :
    (mapGet (analyzeState l).acquires k).isSome ↔ HasPhase l "ACQUIRED" k := by
  rw [analyzeState, foldl_acquires_isSome]
  simp [mapGet]

theorem releases_mem_iff (l : List (Option Event)) (k : String) :
    k ∈ (analyzeState l).releases ↔ HasPhase l "RELEASED" k := by
  rw [analyzeState, foldl_releases_mem]
  simp

theorem starts_values {l : List (Option Event)} {p : String × LockInfo}
    (h : p ∈ (analyzeState l).starts) :
    infoKey p.2 = p.1 ∧
      ∃ e, some e ∈ l ∧ e.state = "START" ∧ infoOf e = p.2 ∧ eventKey e = p.1 := by
  rcases foldl_starts_values l _ p h with h2 | h2
  · simp at h2
  · exact h2

theorem acquires_values {l : List (Option Event)} {p : String × LockInfo}
    (h : p ∈ (analyzeState l).acquires) :
    infoKey p.2 = p.1 ∧
      ∃ e, some e ∈ l ∧ e.state = "ACQUIRED" ∧ infoOf e = p.2 ∧ eventKey e = p.1 := by
  rcases foldl_acquires_values l _ p h with h2 | h2
  · simp at h2
  · exact h2

/-! ### Result membership -/

theorem mem_sortById {i : LockInfo} {l : List LockInfo} :
    i ∈ sortById l ↔ i ∈ l :=
  (List.perm_insertionSort idLe l).mem_iff

theorem stuck_mem_iff {l : List (Option Event)} {i : LockInfo} :
    i ∈ (analyzeCore l).stuck ↔
      ∃ p, p ∈ (analyzeState l).starts ∧
        mapGet (analyzeState l).acquires p.1 = none ∧ p.2 = i := by
  constructor
  · intro h
    have h2 : i ∈ stuckPre (analyzeState l) := mem_sortById.mp h
    rcases List.mem_map.mp h2 with ⟨p, hp, hpi⟩
    rcases List.mem_filter.mp hp with ⟨hmem, hpred⟩
    exact ⟨p, hmem, Option.isNone_iff_eq_none.mp hpred, hpi⟩
  · rintro ⟨p, hmem, hpred, hpi⟩
    have h3 : p ∈ (analyzeState l).starts.filter
        (fun q => (mapGet (analyzeState l).acquires q.1).isNone) :=
      List.mem_filter.mpr ⟨hmem, Option.isNone_iff_eq_none.mpr hpred⟩
    exact mem_sortById.mpr (List.mem_map.mpr ⟨p, h3, hpi⟩)

theorem held_mem_iff {l : List (Option Event)} {i : LockInfo} :
    i ∈ (analyzeCore l).held ↔
      ∃ p, p ∈ (analyzeState l).acquires ∧
        p.1 ∉ (analyzeState l).releases ∧ p.2 = i := by
  constructor
  · intro h
    have h2 : i ∈ heldPre (analyzeState l) := mem_sortById.mp h
    rcases List.mem_map.mp h2 with ⟨p, hp, hpi⟩
    rcases List.mem_filter.mp hp with ⟨hmem, hpred⟩
    exact ⟨p, hmem, of_decide_eq_true hpred, hpi⟩
  · rintro ⟨p, hmem, hpred, hpi⟩
    have h3 : p ∈ (analyzeState l).acquires.filter
        (fun q => decide (q.1 ∉ (analyzeState l).releases)) :=
      List.mem_filter.mpr ⟨hmem, decide_eq_true hpred⟩
    exact mem_sortById.mpr (List.mem_map.mpr ⟨p, h3, hpi⟩)

/-! ### Key re-encodings -/

theorem infoKey_infoOf (e : Event) : infoKey (infoOf e) = eventKey e := rfl

theorem keyOfInfo_infoOf (e : Event) : keyOfInfo (infoOf e) = keyOfEvent e := rfl

theorem encodeKey_keyOfEvent (e : Event) : encodeKey (keyOfEvent e) = eventKey e := rfl

theorem encodeKey_keyOfInfo (i : LockInfo) : encodeKey (keyOfInfo i) = infoKey i := rfl

/-! ### Encoded-key level characterization of the two result collections -/

theorem stuck_enc_iff (l : List (Option Event)) (k : String) :
    (∃ i ∈ (analyzeCore l).stuck, infoKey i = k) ↔
      HasPhase l "START" k ∧ ¬ HasPhase l "ACQUIRED" k := by
  constructor
  · rintro ⟨i, hi, rfl⟩
    rcases stuck_mem_iff.mp hi with ⟨p, hmem, hnone, rfl⟩
    rcases starts_values hmem with ⟨hik, e, he, hst, hinfo, hkey⟩
    refine ⟨⟨e, he, hst, hkey.trans hik.symm⟩, ?_⟩
    rw [hik, ← acquires_isSome_iff]
    simp [hnone]
  · rintro ⟨⟨e, he, hst, hkey⟩, hnacq⟩
    have h1 : (mapGet (analyzeState l).starts k).isSome :=
      (starts_isSome_iff l k).mpr ⟨e, he, hst, hkey⟩
    rcases Option.isSome_iff_exists.mp h1 with ⟨v, hv⟩
    have hmem : (k, v) ∈ (analyzeState l).starts := mem_of_mapGet hv
    have hnone : mapGet (analyzeState l).acquires k = none := by
      rcases h2 : mapGet (analyzeState l).acquires k with _ | v2
      · rfl
      · exact absurd ((acquires_isSome_iff l k).mp (by simp [h2])) hnacq
    exact ⟨v, stuck_mem_iff.mpr ⟨(k, v), hmem, hnone, rfl⟩, (starts_values hmem).1⟩

theorem held_enc_iff (l : List (Option Event)) (k : String) :
    (∃ i ∈ (analyzeCore l).held, infoKey i = k) ↔
      HasPhase l "ACQUIRED" k ∧ ¬ HasPhase l "RELEASED" k := by
  constructor
  · rintro ⟨i, hi, rfl⟩
    rcases held_mem_iff.mp hi with ⟨p, hmem, hnot, rfl⟩
    rcases acquires_values hmem with ⟨hik, e, he, hst, hinfo, hkey⟩
    refine ⟨⟨e, he, hst, hkey.trans hik.symm⟩, ?_⟩
    rw [hik, ← releases_mem_iff]
    exact hnot
  · rintro ⟨⟨e, he, hst, hkey⟩, hnrel⟩
    have h1 : (mapGet (analyzeState l).acquires k).isSome :=
      (acquires_isSome_iff l k).mpr ⟨e, he, hst, hkey⟩
    rcases Option.isSome_iff_exists.mp h1 with ⟨v, hv⟩
    have hmem : (k, v) ∈ (analyzeState l).acquires := mem_of_mapGet hv
    have hnot : k ∉ (analyzeState l).releases := fun hc =>
      hnrel ((releases_mem_iff l k).mp hc)
    exact ⟨v, held_mem_iff.mpr ⟨(k, v), hmem, hnot, rfl⟩, (acquires_values hmem).1⟩

/-! ### Triple level: soundness of the reported keys -/

theorem stuck_triple_sound (l : List (Option Event)) (t : CKey)
    (h : t ∈ stuckKeys (analyzeCore l)) :
    HasPhaseT l "START" t ∧ ¬ HasPhaseT l "ACQUIRED" t := by
  rcases List.mem_map.mp h with ⟨i, hi, rfl⟩
  rcases stuck_mem_iff.mp hi with ⟨p, hmem, hnone, rfl⟩
  rcases starts_values hmem with ⟨hik, e, he, hst, hinfo, hkey⟩
  constructor
  · exact ⟨e, he, hst, by rw [← hinfo]; rfl⟩
  · rintro ⟨e2, he2, hst2, hk2⟩
    have hkk : eventKey e2 = p.1 := by
      calc eventKey e2 = encodeKey (keyOfEvent e2) := rfl
        _ = encodeKey (keyOfInfo p.2) := by rw [hk2]
        _ = infoKey p.2 := rfl
        _ = p.1 := hik
    have h4 : (mapGet (analyzeState l).acquires p.1).isSome :=
      (acquires_isSome_iff l p.1).mpr ⟨e2, he2, hst2, hkk⟩
    simp [hnone] at h4

theorem held_triple_sound (l : List (Option Event)) (t : CKey)
    (h : t ∈ heldKeys (analyzeCore l)) :
    HasPhaseT l "ACQUIRED" t ∧ ¬ HasPhaseT l "RELEASED" t := by
  rcases List.mem_map.mp h with ⟨i, hi, rfl⟩
  rcases held_mem_iff.mp hi with ⟨p, hmem, hnot, rfl⟩
  rcases acquires_values hmem with ⟨hik, e, he, hst, hinfo, hkey⟩
  constructor
  · exact ⟨e, he, hst, by rw [← hinfo]; rfl⟩
  · rintro ⟨e2, he2, hst2, hk2⟩
    have hkk : eventKey e2 = p.1 := by
      calc eventKey e2 = encodeKey (keyOfEvent e2) := rfl
        _ = encodeKey (keyOfInfo p.2) := by rw [hk2]
        _ = infoKey p.2 := rfl
        _ = p.1 := hik
    exact hnot ((releases_mem_iff l p.1).mpr ⟨e2, he2, hst2, hkk⟩)

/-! ### Triple level: completeness under injective key encoding -/

theorem stuck_triple_complete (l : List (Option Event)) (t : CKey)
    (hinj : KeyInj l) (h1 : HasPhaseT l "START" t)
    (h2 : ¬ HasPhaseT l "ACQUIRED" t) :
    t ∈ stuckKeys (analyzeCore l) := by
  rcases h1 with ⟨e, he, hst, hk⟩
  have hkenc : eventKey e = encodeKey t := by rw [← hk]; rfl
  have hstart : HasPhase l "START" (encodeKey t) := ⟨e, he, hst, hkenc⟩
  have hnacq : ¬ HasPhase l "ACQUIRED" (encodeKey t) := by
    rintro ⟨e3, he3, hst3, hk3⟩
    exact h2 ⟨e3, he3, hst3, (hinj e3 e he3 he (hk3.trans hkenc.symm)).trans hk⟩
  rcases (stuck_enc_iff l (encodeKey t)).mpr ⟨hstart, hnacq⟩ with ⟨i, hi, hik⟩
  rcases stuck_mem_iff.mp hi with ⟨p, hmem, hnone, rfl⟩
  rcases starts_values hmem with ⟨hik2, e4, he4, hst4, hinfo4, hkey4⟩
  have hkeq : eventKey e4 = eventKey e := by
    calc eventKey e4 = p.1 := hkey4
      _ = infoKey p.2 := hik2.symm
      _ = encodeKey t := hik
      _ = eventKey e := hkenc.symm
  have h5 : keyOfEvent e4 = t := (hinj e4 e he4 he hkeq).trans hk
  refine List.mem_map.mpr ⟨p.2, hi, ?_⟩
  rw [← hinfo4]
  exact h5

theorem held_triple_complete (l : List (Option Event)) (t : CKey)
    (hinj : KeyInj l) (h1 : HasPhaseT l "ACQUIRED" t)
    (h2 : ¬ HasPhaseT l "RELEASED" t) :
    t ∈ heldKeys (analyzeCore l) := by
  rcases h1 with ⟨e, he, hst, hk⟩
  have hkenc : eventKey e = encodeKey t := by rw [← hk]; rfl
  have hacq : HasPhase l "ACQUIRED" (encodeKey t) := ⟨e, he, hst, hkenc⟩
  have hnrel : ¬ HasPhase l "RELEASED" (encodeKey t) := by
    rintro ⟨e3, he3, hst3, hk3⟩
    exact h2 ⟨e3, he3, hst3, (hinj e3 e he3 he (hk3.trans hkenc.symm)).trans hk⟩
  rcases (held_enc_iff l (encodeKey t)).mpr ⟨hacq, hnrel⟩ with ⟨i, hi, hik⟩
  rcases held_mem_iff.mp hi with ⟨p, hmem, hnot, rfl⟩
  rcases acquires_values hmem with ⟨hik2, e4, he4, hst4, hinfo4, hkey4⟩
  have hkeq : eventKey e4 = eventKey e := by
    calc eventKey e4 = p.1 := hkey4
      _ = infoKey p.2 := hik2.symm
      _ = encodeKey t := hik
      _ = eventKey e := hkenc.symm
  have h5 : keyOfEvent e4 = t := (hinj e4 e he4 he hkeq).trans hk
  refine List.mem_map.mpr ⟨p.2, hi, ?_⟩
  rw [← hinfo4]
  exact h5

/-! ### Claim C1 -/

/-- Claim C1 evaluation: the claim states that a correlation key of an
untracked kind (WLOCK or RWLOCK) never appears in the held collection.
On the twelve-record input of the repository test
`TestAnalyze_CountsByType`, `Analyze` as written reports four held keys,
including the untracked WLOCK d and RWLOCK e keys, because the held
loop of analyze.go applies no lock-kind filter; the test itself expects
exactly the two tracked entries.  The code therefore contradicts its own
test suite and README table on this input. -/
theorem C1_untracked_reported_held_eval :
    (analyzeCore countsInput).held.map keyOfInfo =
      [⟨"LOCK", "a", 1⟩, ⟨"RLOCK", "c", 3⟩, ⟨"WLOCK", "d", 4⟩, ⟨"RWLOCK", "e", 5⟩] ∧
    (analyzeCore countsInput).held.length = 4 :=
  ⟨rfl, rfl⟩

/-! ### Claim C2 -/

/-- Claim C2 counterexample: taken over (kind, label, id) triples, the
claim fails as stated.  In the two-record stream with a START for the
triple (LOCK, x|2, 3) and an ACQUIRED for the different triple
(LOCK|x, 2, 3), both events receive the same analyzer key string, so
the triple (LOCK, x|2, 3) has a START event and no ACQUIRED event and
nevertheless does not appear in the stuck collection. -/
theorem C2_counterexample :
    HasPhaseT [some cexStart, some cexAcq] "START" ⟨"LOCK", "x|2", 3⟩ ∧
    ¬ HasPhaseT [some cexStart, some cexAcq] "ACQUIRED" ⟨"LOCK", "x|2", 3⟩ ∧
    (⟨"LOCK", "x|2", 3⟩ : CKey) ∉ stuckKeys (analyzeCore [some cexStart, some cexAcq]) := by
  refine ⟨⟨cexStart, by simp, rfl, rfl⟩, ?_, by decide⟩
  rintro ⟨e, he, hs, hk⟩
  simp [List.mem_cons] at he
  rcases he with rfl | rfl
  · exact absurd hs (by decide)
  · exact absurd hk (by decide)

/-- Claim C2 (amended): for every input stream whose events encode their
correlation keys injectively (no two events with distinct (kind, label,
id) triples share the key string kind-bar-label-bar-id; guaranteed
whenever no kind field contains a bar, as for all four library kinds)
and for every lock kind, the stuck collection contains exactly the
correlation keys with a START event and no ACQUIRED event, and no such
key appears in the held collection. -/
theorem C2_stuck_exact (l : List (Option Event)) (t : CKey) (hinj : KeyInj l) :
    (t ∈ stuckKeys (analyzeCore l) ↔
      HasPhaseT l "START" t ∧ ¬ HasPhaseT l "ACQUIRED" t) ∧
    (t ∈ stuckKeys (analyzeCore l) → t ∉ heldKeys (analyzeCore l)) := by
  constructor
  · constructor
    · exact stuck_triple_sound l t
    · exact fun h => stuck_triple_complete l t hinj h.1 h.2
  · intro hs hh
    exact (stuck_triple_sound l t hs).2 (held_triple_sound l t hh).1

/-- Witness for C2: on the one-record stream with a START for the triple
(WLOCK, w, 7), that key is stuck and not held. -/
theorem C2_witness :
    (⟨"WLOCK", "w", 7⟩ : CKey) ∈
        stuckKeys (analyzeCore [some (mkEv "WLOCK" "START" "w" 7 1)]) ∧
    (⟨"WLOCK", "w", 7⟩ : CKey) ∉
        heldKeys (analyzeCore [some (mkEv "WLOCK" "START" "w" 7 1)]) := by
  have hinj : KeyInj [some (mkEv "WLOCK" "START" "w" 7 1)] := by
    rintro e e2 he he2 hk
    simp [List.mem_cons] at he he2
    subst he
    subst he2
    rfl
  have h := C2_stuck_exact [some (mkEv "WLOCK" "START" "w" 7 1)] ⟨"WLOCK", "w", 7⟩ hinj
  have hmem : (⟨"WLOCK", "w", 7⟩ : CKey) ∈
      stuckKeys (analyzeCore [some (mkEv "WLOCK" "START" "w" 7 1)]) := by
    refine h.1.mpr ⟨⟨mkEv "WLOCK" "START" "w" 7 1, by simp, rfl, rfl⟩, ?_⟩
    rintro ⟨e, he, hs, hk⟩
    simp [List.mem_cons] at he
    subst he
    exact absurd hs (by decide)
  exact ⟨hmem, h.2 hmem⟩

/-! ### Claim C3 -/

/-- Claim C3 counterexample: taken over (kind, label, id) triples, order
independence fails as stated.  The two START events for the distinct
triples (LOCK, x|2, 3) and (LOCK|x, 2, 3) receive the same analyzer
key string, so the second overwrites the first: under one order the
stuck collection carries the triple (LOCK|x, 2, 3), under the reversed
order it does not. -/
theorem C3_counterexample :
    List.Perm [some cexS1, some cexS2] [some cexS2, some cexS1] ∧
    (⟨"LOCK|x", "2", 3⟩ : CKey) ∈
        stuckKeys (analyzeCore [some cexS1, some cexS2]) ∧
    (⟨"LOCK|x", "2", 3⟩ : CKey) ∉
        stuckKeys (analyzeCore [some cexS2, some cexS1]) :=
  ⟨List.Perm.swap _ _ _, by decide, by decide⟩

/-- Claim C3 (amended): for every input whose events encode their
correlation keys injectively, every permutation of the input lines
yields the same set of stuck correlation keys and the same set of held
correlation keys: both depend only on which (key, phase) pairs are
present, not on the order of the lines. -/
theorem C3_perm_invariant (l l2 : List (Option Event)) (hp : l.Perm l2)
    (hinj : KeyInj l) :
    (∀ t, t ∈ stuckKeys (analyzeCore l) ↔ t ∈ stuckKeys (analyzeCore l2)) ∧
    (∀ t, t ∈ heldKeys (analyzeCore l) ↔ t ∈ heldKeys (analyzeCore l2)) := by
  have hmem : ∀ o : Option Event, o ∈ l ↔ o ∈ l2 := fun _o => hp.mem_iff
  have hinj2 : KeyInj l2 := fun e e2 he he2 hk =>
    hinj e e2 ((hmem _).mpr he) ((hmem _).mpr he2) hk
  have hpt : ∀ ph t, HasPhaseT l ph t ↔ HasPhaseT l2 ph t := by
    intro ph t
    constructor <;> rintro ⟨e, he, h1, h2⟩
    · exact ⟨e, (hmem _).mp he, h1, h2⟩
    · exact ⟨e, (hmem _).mpr he, h1, h2⟩
  constructor
  · intro t
    constructor
    · intro h
      rcases stuck_triple_sound l t h with ⟨h1, h2⟩
      exact stuck_triple_complete l2 t hinj2 ((hpt _ _).mp h1)
        (fun hc => h2 ((hpt _ _).mpr hc))
    · intro h
      rcases stuck_triple_sound l2 t h with ⟨h1, h2⟩
      exact stuck_triple_complete l t hinj ((hpt _ _).mpr h1)
        (fun hc => h2 ((hpt _ _).mp hc))
  · intro t
    constructor
    · intro h
      rcases held_triple_sound l t h with ⟨h1, h2⟩
      exact held_triple_complete l2 t hinj2 ((hpt _ _).mp h1)
        (fun hc => h2 ((hpt _ _).mpr hc))
    · intro h
      rcases held_triple_sound l2 t h with ⟨h1, h2⟩
      exact held_triple_complete l t hinj ((hpt _ _).mpr h1)
        (fun hc => h2 ((hpt _ _).mp hc))

/-- Witness for C3: swapping the two records of a concrete stream leaves
stuck membership of the key (LOCK, a, 1) unchanged. -/
theorem C3_witness :
    (⟨"LOCK", "a", 1⟩ : CKey) ∈ stuckKeys (analyzeCore
        [some (mkEv "LOCK" "START" "a" 1 1), some (mkEv "RLOCK" "ACQUIRED" "b" 2 2)]) ↔
      (⟨"LOCK", "a", 1⟩ : CKey) ∈ stuckKeys (analyzeCore
        [some (mkEv "RLOCK" "ACQUIRED" "b" 2 2), some (mkEv "LOCK" "START" "a" 1 1)]) := by
  have hinj : KeyInj
      [some (mkEv "LOCK" "START" "a" 1 1), some (mkEv "RLOCK" "ACQUIRED" "b" 2 2)] := by
    rintro e e2 he he2 hk
    simp [List.mem_cons] at he he2
    rcases he with rfl | rfl <;> rcases he2 with rfl | rfl <;>
      first | rfl | exact absurd hk (by decide)
  exact (C3_perm_invariant _ _ (List.Perm.swap _ _ _) hinj).1 ⟨"LOCK", "a", 1⟩

/-! ### Claim C4 -/

theorem foldl_step_filter (l : List (Option Event)) :
    ∀ st : AState, l.foldl step st = (l.filter (fun o => o.isSome)).foldl step st := by
  induction l with
  | nil => intro st; rfl
  | cons x rest ih =>
    intro st
    cases x with
    | none =>
      have h1 : (none :: rest).filter (fun o : Option Event => o.isSome) =
          rest.filter (fun o => o.isSome) := by simp
      rw [List.foldl_cons, step_none, h1, ih]
    | some e =>
      have h1 : (some e :: rest).filter (fun o : Option Event => o.isSome) =
          some e :: rest.filter (fun o => o.isSome) := by simp
      rw [List.foldl_cons, h1, List.foldl_cons, ih]

/-- Claim C4: a line that does not decode to a well-formed event record
(an empty line or non-JSON text, modelled as a `none` line) is skipped
without producing an error, and the analysis of a stream equals the
analysis of the stream with all such lines removed — so interspersed
non-record lines change neither the classification nor the count of the
well-formed records around them. -/
theorem C4_undecodable_skipped (lines : List (Option Event)) (readErr : Option String) :
    AnalyzeGo lines readErr = AnalyzeGo (lines.filter (fun o => o.isSome)) readErr := by
  cases readErr with
  | none =>
    show (some (finish (lines.foldl step ⟨[], [], []⟩)), (none : Option String)) =
      (some (finish ((lines.filter (fun o => o.isSome)).foldl step ⟨[], [], []⟩)), none)
    rw [foldl_step_filter lines]
  | some msg => rfl

/-! ### Claim C5 -/

/-- Claim C5: `Analyze` either completes the full pass and returns the
result of that pass with no error, or, when the underlying reader
failed, returns the reader error and no result at all; there is no
outcome carrying both a partial result and an error. -/
theorem C5_result_xor_error (lines : List (Option Event)) (readErr : Option String) :
    (readErr = none ∧ AnalyzeGo lines readErr = (some (analyzeCore lines), none)) ∨
    (∃ msg, readErr = some msg ∧ AnalyzeGo lines readErr = (none, some msg)) := by
  cases readErr with
  | none => exact Or.inl ⟨rfl, rfl⟩
  | some msg => exact Or.inr ⟨msg, rfl, rfl⟩

/-! ### Claim C6 -/

theorem sorted_sortById (l : List LockInfo) : (sortById l).Sorted idLe :=
  List.sorted_insertionSort idLe l

/-- Claim C6: for every input stream, both collections of the returned
result are sorted in ascending order of correlation id. -/
theorem C6_results_sorted (lines : List (Option Event)) :
    (analyzeCore lines).stuck.Sorted idLe ∧ (analyzeCore lines).held.Sorted idLe :=
  ⟨sorted_sortById _, sorted_sortById _⟩

/-! ### Claim C7 -/

/-- Claim C7: for each single lock operation, the START event is emitted
before the wrapped primitive is acquired and the ACQUIRED event only
after the primitive grants the lock; for tracked operations the returned
release function emits RELEASED first and releases the primitive second;
and all events of one operation carry the same correlation id. -/
theorem C7_emission_order (m : MutexCfg) (env : Env) (opts : List LockOpt)
    (h : m.hasLogger = true) :
    (∃ s a, lockOp m env = [Action.emit s, Action.lockPrim, Action.emit a] ∧
      s.state = "START" ∧ a.state = "ACQUIRED" ∧ s.id = a.id) ∧
    (∃ s a, rlockOp m env = [Action.emit s, Action.rlockPrim, Action.emit a] ∧
      s.state = "START" ∧ a.state = "ACQUIRED" ∧ s.id = a.id) ∧
    (∃ s a r2, (lockFuncOp m opts env).1 = [Action.emit s, Action.lockPrim, Action.emit a] ∧
      (lockFuncOp m opts env).2.1 = [Action.emit r2, Action.unlockPrim] ∧
      s.state = "START" ∧ a.state = "ACQUIRED" ∧ r2.state = "RELEASED" ∧
      s.id = a.id ∧ a.id = r2.id) ∧
    (∃ s a r2, (rlockFuncOp m opts env).1 = [Action.emit s, Action.rlockPrim, Action.emit a] ∧
      (rlockFuncOp m opts env).2.1 = [Action.emit r2, Action.runlockPrim] ∧
      s.state = "START" ∧ a.state = "ACQUIRED" ∧ r2.state = "RELEASED" ∧
      s.id = a.id ∧ a.id = r2.id) := by
  refine
    ⟨⟨⟨"WLOCK", "START", m.name, (randIntN 9999999 env.r : Int),
        if m.traceDepth > 0 then env.tr else "", env.ts1⟩,
      ⟨"WLOCK", "ACQUIRED", m.name, (randIntN 9999999 env.r : Int),
        if m.traceDepth > 0 then env.tr else "", env.ts2⟩,
      by simp [lockOp, emitActs, h], rfl, rfl, rfl⟩,
     ⟨⟨"RWLOCK", "START", m.name, (randIntN 9999999 env.r : Int),
        if m.traceDepth > 0 then env.tr else "", env.ts1⟩,
      ⟨"RWLOCK", "ACQUIRED", m.name, (randIntN 9999999 env.r : Int),
        if m.traceDepth > 0 then env.tr else "", env.ts2⟩,
      by simp [rlockOp, emitActs, h], rfl, rfl, rfl⟩,
     ⟨⟨"LOCK", "START", (opts.foldl (fun s2 o => o s2) (⟨m.name⟩ : CallOpts)).name,
        (randIntN 9999999 env.r : Int), if m.traceDepth > 0 then env.tr else "", env.ts1⟩,
      ⟨"LOCK", "ACQUIRED", (opts.foldl (fun s2 o => o s2) (⟨m.name⟩ : CallOpts)).name,
        (randIntN 9999999 env.r : Int), if m.traceDepth > 0 then env.tr else "", env.ts2⟩,
      ⟨"LOCK", "RELEASED", (opts.foldl (fun s2 o => o s2) (⟨m.name⟩ : CallOpts)).name,
        (randIntN 9999999 env.r : Int), if m.traceDepth > 0 then env.tr else "", env.ts3⟩,
      by simp [lockFuncOp, emitActs, h], by simp [lockFuncOp, emitActs, h],
      rfl, rfl, rfl, rfl, rfl⟩,
     ⟨⟨"RLOCK", "START", (opts.foldl (fun s2 o => o s2) (⟨m.name⟩ : CallOpts)).name,
        (randIntN 9999999 env.r : Int), if m.traceDepth > 0 then env.tr else "", env.ts1⟩,
      ⟨"RLOCK", "ACQUIRED", (opts.foldl (fun s2 o => o s2) (⟨m.name⟩ : CallOpts)).name,
        (randIntN 9999999 env.r : Int), if m.traceDepth > 0 then env.tr else "", env.ts2⟩,
      ⟨"RLOCK", "RELEASED", (opts.foldl (fun s2 o => o s2) (⟨m.name⟩ : CallOpts)).name,
        (randIntN 9999999 env.r : Int), if m.traceDepth > 0 then env.tr else "", env.ts3⟩,
      by simp [rlockFuncOp, emitActs, h], by simp [rlockFuncOp, emitActs, h],
      rfl, rfl, rfl, rfl, rfl⟩⟩

/-- Witness for C7: the write-lock operation of a concrete logged mutex. -/
theorem C7_witness :
    ∃ s a, lockOp ⟨"m", true, 0⟩ ⟨0, "", 1, 2, 3⟩ =
        [Action.emit s, Action.lockPrim, Action.emit a] ∧
      s.state = "START" ∧ a.state = "ACQUIRED" ∧ s.id = a.id :=
  (C7_emission_order ⟨"m", true, 0⟩ ⟨0, "", 1, 2, 3⟩ [] rfl).1

/-! ### Claim C8 -/

/-- Claim C8: a per-call label supplied to a tracked call is used as the
label of every event the call emits, a call without a per-call label
uses the lock instance's configured label, and the call leaves the lock
instance unchanged, so a subsequent call without a per-call label still
uses the configured label. -/
theorem C8_label_override (m : MutexCfg) (env env2 : Env) (n : String) :
    (∀ e ∈ emittedEvents ((lockFuncOp m [WithLockName n] env).1 ++
        (lockFuncOp m [WithLockName n] env).2.1), e.name = n) ∧
    ((lockFuncOp m [WithLockName n] env).2.2 = m) ∧
    (∀ e ∈ emittedEvents ((lockFuncOp ((lockFuncOp m [WithLockName n] env).2.2) [] env2).1 ++
        (lockFuncOp ((lockFuncOp m [WithLockName n] env).2.2) [] env2).2.1),
      e.name = m.name) ∧
    (∀ e ∈ emittedEvents ((rlockFuncOp m [WithLockName n] env).1 ++
        (rlockFuncOp m [WithLockName n] env).2.1), e.name = n) ∧
    ((rlockFuncOp m [WithLockName n] env).2.2 = m) ∧
    (∀ e ∈ emittedEvents ((rlockFuncOp ((rlockFuncOp m [WithLockName n] env).2.2) [] env2).1 ++
        (rlockFuncOp ((rlockFuncOp m [WithLockName n] env).2.2) [] env2).2.1),
      e.name = m.name) := by
  refine ⟨?_, rfl, ?_, ?_, rfl, ?_⟩
  all_goals
    intro e he
    cases hl : m.hasLogger <;>
      simp [lockFuncOp, rlockFuncOp, emitActs, emittedEvents, WithLockName, hl] at he
    rcases he with rfl | rfl | rfl <;> rfl

/-- Witness for C8: the START event of a tracked call with the per-call
label `call` on a mutex configured with the label `base`. -/
theorem C8_witness : (⟨"LOCK", "START", "call", 5, "", 1⟩ : Event).name = "call" :=
  (C8_label_override ⟨"base", true, 0⟩ ⟨5, "", 1, 2, 3⟩ ⟨6, "", 4, 5, 6⟩ "call").1
    ⟨"LOCK", "START", "call", 5, "", 1⟩ (by decide)

/-! ### Claim C9 -/

/-- Claim C9: encoding an event to its wire record and decoding the
record back yields an event equal to the original in all fields; an
empty label round-trips as an empty (still present) name field, and an
empty trace round-trips as an omitted field. -/
theorem C9_wire_roundtrip (e : Event) :
    decodeEvent (encodeEvent e) = some e ∧
    (e.trace = "" → "trace" ∉ (encodeEvent e).map Prod.fst) ∧
    (e.name = "" → ("name", Jval.jstr "") ∈ encodeEvent e) := by
  obtain ⟨ty, st, nm, i, tr, ts⟩ := e
  by_cases h : tr = ""
  · subst h
    refine ⟨rfl, fun _ => ?_, fun hn => ?_⟩
    · simp [encodeEvent]
    · subst hn
      simp [encodeEvent]
  · have henc : encodeEvent ⟨ty, st, nm, i, tr, ts⟩ =
        [("type", .jstr ty), ("state", .jstr st), ("name", .jstr nm),
         ("id", .jint i), ("trace", .jstr tr), ("ts", .jint ts)] := by
      simp [encodeEvent, h]
    refine ⟨by rw [henc]; rfl, fun hc => absurd hc h, fun hn => ?_⟩
    subst hn
    rw [henc]
    simp

/-- Witness for C9: a concrete event with empty trace encodes to a
record without a trace field. -/
theorem C9_witness :
    "trace" ∉ (encodeEvent (mkEv "LOCK" "START" "a" 1 2)).map Prod.fst :=
  (C9_wire_roundtrip (mkEv "LOCK" "START" "a" 1 2)).2.1 rfl

/-! ### Claim C10 -/

/-- Claim C10: every correlation id generated by any of the four
acquisition operations is a non-negative integer strictly below 9999999
(the bound `rand.IntN(9999999)` imposes), so the id space has fewer than
ten million values. -/
theorem C10_id_range (m : MutexCfg) (env : Env) (opts : List LockOpt) :
    (∀ e ∈ emittedEvents (lockOp m env), 0 ≤ e.id ∧ e.id < 9999999) ∧
    (∀ e ∈ emittedEvents (rlockOp m env), 0 ≤ e.id ∧ e.id < 9999999) ∧
    (∀ e ∈ emittedEvents ((lockFuncOp m opts env).1 ++ (lockFuncOp m opts env).2.1),
      0 ≤ e.id ∧ e.id < 9999999) ∧
    (∀ e ∈ emittedEvents ((rlockFuncOp m opts env).1 ++ (rlockFuncOp m opts env).2.1),
      0 ≤ e.id ∧ e.id < 9999999) := by
  have hb : (0 : Int) ≤ ((randIntN 9999999 env.r : Nat) : Int) ∧
      ((randIntN 9999999 env.r : Nat) : Int) < 9999999 := by
    constructor
    · exact Int.ofNat_nonneg _
    · have h2 : randIntN 9999999 env.r < 9999999 := Nat.mod_lt _ (by omega)
      exact_mod_cast h2
  refine ⟨?_, ?_, ?_, ?_⟩
  · intro e he
    cases hl : m.hasLogger <;> simp [lockOp, emitActs, emittedEvents, hl] at he
    rcases he with rfl | rfl <;> exact hb
  · intro e he
    cases hl : m.hasLogger <;> simp [rlockOp, emitActs, emittedEvents, hl] at he
    rcases he with rfl | rfl <;> exact hb
  · intro e he
    cases hl : m.hasLogger <;> simp [lockFuncOp, emitActs, emittedEvents, hl] at he
    rcases he with rfl | rfl | rfl <;> exact hb
  · intro e he
    cases hl : m.hasLogger <;> simp [rlockFuncOp, emitActs, emittedEvents, hl] at he
    rcases he with rfl | rfl | rfl <;> exact hb

/-- Witness for C10: the START event of a concrete write-lock call. -/
theorem C10_witness :
    (0 : Int) ≤ (⟨"WLOCK", "START", "m", 5, "", 1⟩ : Event).id ∧
      (⟨"WLOCK", "START", "m", 5, "", 1⟩ : Event).id < 9999999 :=
  (C10_id_range ⟨"m", true, 0⟩ ⟨5, "", 1, 2, 3⟩ []).1
    ⟨"WLOCK", "START", "m", 5, "", 1⟩ (by decide)

end Deadlog
